import Mathlib

/-!
# docker_app_lifecycle: the builder's command line, credential checks and helpers

A shallow embedding of `builder/main.go` and `helpers/helpers.go`.

* Go strings are embedded as `String`; the functions of Go's `strings` package
  that the sources call are embedded on the character lists.
* `len(s) == 0` and `len(s) > 0` are embedded with the length in characters,
  which is zero exactly when the length in bytes is.
* `os.Exit(n)` is embedded as the error side of `Except Exit`.
* Functions of other packages whose bodies decide nothing here (`url.Parse`,
  the registry session, the operating system) are parameters.
-/

namespace DockerAppLifecycle

/-! ## Go's `strings` package -/

/-- Go's `unicode.IsSpace`: the code points with the White_Space property. -/
def isSpace (c : Char) : Bool :=
  c.toNat == 0x09 || c.toNat == 0x0A || c.toNat == 0x0B || c.toNat == 0x0C ||
  c.toNat == 0x0D || c.toNat == 0x20 || c.toNat == 0x85 || c.toNat == 0xA0 ||
  c.toNat == 0x1680 || (0x2000 ≤ c.toNat && c.toNat ≤ 0x200A) ||
  c.toNat == 0x2028 || c.toNat == 0x2029 || c.toNat == 0x202F ||
  c.toNat == 0x205F || c.toNat == 0x3000

/-- Characters of `strings.TrimSpace`: leading and trailing white space removed. -/
def trimSpaceChars (s : List Char) : List Char :=
  ((s.dropWhile isSpace).reverse.dropWhile isSpace).reverse

/-- Go's `strings.TrimSpace`. -/
def strings.TrimSpace (s : String) : String := ⟨trimSpaceChars s.data⟩

/-- Characters of `strings.Contains`: `substr` starts at some position of `s`. -/
def containsChars : List Char → List Char → Bool
  | [], substr => substr.isEmpty
  | c :: cs, substr => substr.isPrefixOf (c :: cs) || containsChars cs substr

/-- Go's `strings.Contains`. -/
def strings.Contains (s substr : String) : Bool := containsChars s.data substr.data

/-- Characters of `strings.Split` for a one-character separator: the pieces
between the separators, in order; an empty input gives one empty piece. -/
def splitChars (sep : Char) : List Char → List (List Char)
  | [] => [[]]
  | c :: cs =>
    if c = sep then [] :: splitChars sep cs
    else
      match splitChars sep cs with
      | [] => [[c]]
      | p :: ps => (c :: p) :: ps

/-- Go's `strings.Split(s, sep)` for a separator of one character (the source
only splits at `","`). -/
def strings.Split (s : String) (sep : Char) : List String :=
  (splitChars sep s.data).map String.mk

/-! ## `builder/main.go`: the `registries` flag value -/

/-- The Go type `registries []string`. -/
abbrev registries := List String

/-- The `for ... range strings.Split(value, ",")` loop of `registries.Set`:
the error returned (`none` for `nil`) and the receiver afterwards. -/
def registries.setLoop (r : registries) : List String → Option String × registries
  | [] => (none, r)
  | reg :: rest =>
    let registry := strings.TrimSpace reg
    if strings.Contains registry "://" then
      (some ("no scheme allowed for Docker Registry [" ++ registry ++ "]"), r)
    else if !strings.Contains registry ":" then
      (some ("ip:port expected for Docker Registry [" ++ registry ++ "]"), r)
    else
      registries.setLoop (r ++ [registry]) rest

/-- The method `func (r *registries) Set(value string) error`: the error
returned (`none` for `nil`) and `*r` afterwards. -/
def registries.Set (r : registries) (value : String) : Option String × registries :=
  if r.length > 0 then
    (some "Docker Registries flag already set", r)
  else
    registries.setLoop r (strings.Split value ',')

/-! ## What `registries.Set` is to accept, in the words of its claim -/

/-- The white-space code points, one by one. -/
def whiteSpaceCodePoints : List Nat :=
  [0x09, 0x0A, 0x0B, 0x0C, 0x0D, 0x20, 0x85, 0xA0, 0x1680, 0x2000, 0x2001, 0x2002, 0x2003,
    0x2004, 0x2005, 0x2006, 0x2007, 0x2008, 0x2009, 0x200A, 0x2028, 0x2029, 0x202F, 0x205F,
    0x3000]

/-- A white-space character: tab, line feed, vertical tab, form feed, carriage
return, space, next line, no-break space, or one of the other Unicode spaces. -/
def WhiteSpace (c : Char) : Prop := c.toNat ∈ whiteSpaceCodePoints

/-- The string `t` is `s` without its surrounding white space: `s` is `t` between
two runs of white space, and `t` neither starts nor ends with white space. -/
def IsTrimOf (t s : String) : Prop :=
  ∃ pre post : List Char, s.data = pre ++ t.data ++ post ∧
    (∀ c ∈ pre, WhiteSpace c) ∧ (∀ c ∈ post, WhiteSpace c) ∧
    (∀ c, t.data.head? = some c → ¬ WhiteSpace c) ∧
    (∀ c, t.data.getLast? = some c → ¬ WhiteSpace c)

/-- The list `pieces` is the comma-separated pieces of `value`: there is at
least one piece, no piece has a comma, and the pieces joined by commas are
`value`. -/
def IsCommaPieces (value : String) (pieces : List String) : Prop :=
  pieces ≠ [] ∧ (∀ p ∈ pieces, ',' ∉ p.data) ∧
    List.intercalate [','] (pieces.map String.data) = value.data

/-- A registry address as `registries.Set` wants it: it contains `:` and does
not contain `://`. -/
def WellFormedAddress (p : String) : Prop :=
  ":".data <:+: p.data ∧ ¬ ("://".data <:+: p.data)

/-! ## `builder/main.go`: `validateCredentials` -/

/-- The fields of Go's `url.URL` that the sources read. -/
structure URL where
  Host : String
  Path : String
  Fragment : String
  deriving DecidableEq

/-- A call of `os.Exit`: the status, and the line printed just before it. -/
structure Exit where
  status : Nat
  message : String
  deriving DecidableEq

/-- The function `validateCredentials(server, token, email string)`; `url.Parse`
is a parameter. `Except.ok ()` is a normal return. -/
def validateCredentials (urlParse : String → Except String URL)
    (server token email : String) : Except Exit Unit :=
  let missing := server.length == 0 && token.length == 0 && email.length == 0
  let present := decide (server.length > 0) && decide (token.length > 0) &&
    decide (email.length > 0)
  if missing then
    Except.ok ()
  else if !present then
    Except.error ⟨1, "missing flags: dockerLoginServer, dockerRegistryAuthToken and dockerRegistryEmail required simultaneously"⟩
  else
    match urlParse server with
    | Except.error _ => Except.error ⟨1, "invalid dockerLoginServer [" ++ server ++ "]"⟩
    | Except.ok _ =>
      if !(strings.Contains email "@" && strings.Contains email ".") then
        Except.error ⟨1, "invalid dockerRegistryEmail [" ++ email ++ "]"⟩
      else
        Except.ok ()

/-! ## Go's `flag` package, as `main` uses it -/

/-- The flags `main` declares on its flag set, with their default values. -/
structure Flags where
  dockerImageURL : String
  dockerRef : String
  outputFilename : String
  insecureDockerRegistries : registries
  dockerRegistryAddresses : registries
  dockerDaemonExecutablePath : String
  cacheDockerImage : Bool
  dockerLoginServer : String
  dockerRegistryAuthToken : String
  dockerRegistryEmail : String
  deriving DecidableEq

/-- The values of the flags before `Parse`: the defaults given in `main`. -/
def Flags.defaults : Flags :=
  ⟨"", "", "/tmp/result/result.json", [], [], "/tmp/docker_app_lifecycle/docker",
    false, "", "", ""⟩

/-- Go's `strconv.ParseBool`, which sets a boolean flag from its text. -/
def strconv.ParseBool (str : String) : Option Bool :=
  if str = "1" ∨ str = "t" ∨ str = "T" ∨ str = "TRUE" ∨ str = "true" ∨ str = "True" then
    some true
  else if str = "0" ∨ str = "f" ∨ str = "F" ∨ str = "FALSE" ∨ str = "false" ∨ str = "False" then
    some false
  else
    none

/-- The errors of `FlagSet.parseOne`: `flag.ErrHelp`, or one made by `failf`. -/
inductive FlagError where
  | help
  | badSyntax (arg : String)
  | notDefined (name : String)
  | invalidBoolean (value name : String)
  | needsArgument (name : String)
  | invalidValue (value name err : String)
  deriving DecidableEq

/-- Whether `name` is a declared flag that is boolean (`IsBoolFlag`): `none`
when no flag of that name is declared. -/
def Flags.isBoolFlag (name : String) : Option Bool :=
  if name = "cacheDockerImage" then some true
  else if name = "dockerImageURL" ∨ name = "dockerRef" ∨ name = "outputMetadataJSONFilename" ∨
      name = "insecureDockerRegistries" ∨ name = "dockerRegistryAddresses" ∨
      name = "dockerDaemonExecutablePath" ∨ name = "dockerLoginServer" ∨
      name = "dockerRegistryAuthToken" ∨ name = "dockerRegistryEmail" then some false
  else none

/-- The call `flag.Value.Set(value)` on a declared non-boolean flag: string
flags store the text, the two `registries` flags call `registries.Set`. The
error (if any) and the flag values afterwards. -/
def Flags.setValue (fl : Flags) (name value : String) : Option String × Flags :=
  if name = "dockerImageURL" then (none, { fl with dockerImageURL := value })
  else if name = "dockerRef" then (none, { fl with dockerRef := value })
  else if name = "outputMetadataJSONFilename" then (none, { fl with outputFilename := value })
  else if name = "insecureDockerRegistries" then
    ((registries.Set fl.insecureDockerRegistries value).1,
      { fl with insecureDockerRegistries := (registries.Set fl.insecureDockerRegistries value).2 })
  else if name = "dockerRegistryAddresses" then
    ((registries.Set fl.dockerRegistryAddresses value).1,
      { fl with dockerRegistryAddresses := (registries.Set fl.dockerRegistryAddresses value).2 })
  else if name = "dockerDaemonExecutablePath" then
    (none, { fl with dockerDaemonExecutablePath := value })
  else if name = "dockerLoginServer" then (none, { fl with dockerLoginServer := value })
  else if name = "dockerRegistryAuthToken" then
    (none, { fl with dockerRegistryAuthToken := value })
  else if name = "dockerRegistryEmail" then (none, { fl with dockerRegistryEmail := value })
  else (none, fl)

/-- The state of a flag set while parsing: the flag values and `f.args`. -/
structure FlagSet where
  values : Flags
  args : List String
  deriving DecidableEq

/-- The part of `parseOne` after the name is split off: `name=value` is cut at
the first `=` that is not the first character. -/
def FlagSet.splitName (name : List Char) : String × Option String :=
  match name with
  | [] => ("", none)
  | c :: cs =>
    match cs.span (fun x => x != '=') with
    | (before, _ :: value) => (String.mk (c :: before), some (String.mk value))
    | (before, []) => (String.mk (c :: before), none)

/-- The part of `parseOne` that finds the value of a non-boolean flag: the text
after `=`, or else the next argument, which is then consumed. -/
def FlagSet.takeValue : Option String → List String → Option String × List String
  | some value, rest => (some value, rest)
  | none, value :: rest2 => (some value, rest2)
  | none, [] => (none, [])

/-- The part of `parseOne` from the check of the flag's name on: `s` is the
argument, `rest` the arguments after it, `name` is `s` without its minus signs. -/
def FlagSet.parseFlag (f : FlagSet) (s : String) (rest : List String) (name : List Char) :
    Bool × Option FlagError × FlagSet :=
  match name with
  | [] => (false, some (FlagError.badSyntax s), f)
  | n0 :: _ =>
    if n0 = '-' ∨ n0 = '=' then (false, some (FlagError.badSyntax s), f)
    else
      match Flags.isBoolFlag (FlagSet.splitName name).1 with
      | none =>
        if (FlagSet.splitName name).1 = "help" ∨ (FlagSet.splitName name).1 = "h" then
          (false, some FlagError.help, ⟨f.values, rest⟩)
        else
          (false, some (FlagError.notDefined (FlagSet.splitName name).1), ⟨f.values, rest⟩)
      | some true =>
        match (FlagSet.splitName name).2 with
        | some value =>
          match strconv.ParseBool value with
          | none =>
            (false, some (FlagError.invalidBoolean value (FlagSet.splitName name).1),
              ⟨f.values, rest⟩)
          | some b => (true, none, ⟨{ f.values with cacheDockerImage := b }, rest⟩)
        | none => (true, none, ⟨{ f.values with cacheDockerImage := true }, rest⟩)
      | some false =>
        match FlagSet.takeValue (FlagSet.splitName name).2 rest with
        | (none, rest2) =>
          (false, some (FlagError.needsArgument (FlagSet.splitName name).1), ⟨f.values, rest2⟩)
        | (some value, rest2) =>
          match Flags.setValue f.values (FlagSet.splitName name).1 value with
          | (some err, values) =>
            (false, some (FlagError.invalidValue value (FlagSet.splitName name).1 err),
              ⟨values, rest2⟩)
          | (none, values) => (true, none, ⟨values, rest2⟩)

/-- Go's `FlagSet.parseOne`: whether a flag was seen, the error, the state after. -/
def FlagSet.parseOne (f : FlagSet) : Bool × Option FlagError × FlagSet :=
  match f.args with
  | [] => (false, none, f)
  | s :: rest =>
    match s.data with
    | [] => (false, none, f)
    | [_] => (false, none, f)
    | c0 :: c1 :: cs =>
      if c0 != '-' then (false, none, f)
      else if c1 = '-' ∧ cs = [] then (false, none, ⟨f.values, rest⟩)
      else FlagSet.parseFlag f s rest (if c1 = '-' then cs else c1 :: cs)

/-- The loop of `FlagSet.Parse` up to the first error: `none` is out of fuel. -/
def FlagSet.parseLoop : Nat → FlagSet → Option (Option FlagError × FlagSet)
  | 0, _ => none
  | fuel + 1, f =>
    match FlagSet.parseOne f with
    | (true, _, f2) => FlagSet.parseLoop fuel f2
    | (false, err, f2) => some (err, f2)

/-- Go's `flag.ErrorHandling`. -/
inductive ErrorHandling where
  | ContinueOnError
  | ExitOnError
  | PanicOnError
  deriving DecidableEq

/-- What a call of `FlagSet.Parse` does: return its error, end the process
through `os.Exit`, or panic. -/
inductive ParseOutcome where
  | returned (err : Option FlagError) (f : FlagSet)
  | exited (status : Nat)
  | panicked (err : FlagError)
  | outOfFuel
  deriving DecidableEq

/-- Go's `FlagSet.Parse(arguments)`: on an error of `parseOne` the flag set's
error handling decides; `ExitOnError` calls `os.Exit(2)`, or `os.Exit(0)` for the
help flags (older releases of Go exit with 2 there as well), and does not
return to the caller. -/
def FlagSet.Parse (errorHandling : ErrorHandling) (values : Flags) (arguments : List String) :
    ParseOutcome :=
  match FlagSet.parseLoop (arguments.length + 1) ⟨values, arguments⟩ with
  | none => ParseOutcome.outOfFuel
  | some (none, f) => ParseOutcome.returned none f
  | some (some err, f) =>
    match errorHandling with
    | ErrorHandling.ContinueOnError => ParseOutcome.returned (some err) f
    | ErrorHandling.ExitOnError =>
      if err = FlagError.help then ParseOutcome.exited 0 else ParseOutcome.exited 2
    | ErrorHandling.PanicOnError => ParseOutcome.panicked err

/-! ## `builder/main.go`: `main` -/

/-- The fields `main` gives the `Builder` it runs. -/
structure Builder where
  RepoName : String
  Tag : String
  DockerRegistryAddresses : List String
  InsecureDockerRegistries : List String
  OutputFilename : String
  DockerDaemonExecutablePath : String
  DockerDaemonTimeout : Nat
  CacheDockerImage : Bool
  DockerLoginServer : String
  DockerRegistryAuthToken : String
  DockerRegistryEmail : String
  deriving DecidableEq

/-- The fields `main` gives the `DockerDaemon` it runs. -/
structure DockerDaemon where
  DockerDaemonPath : String
  InsecureDockerRegistries : List String
  deriving DecidableEq

/-- The runners `main` registers: `builder.Run` and `dockerDaemon.Run`. -/
inductive Runner where
  | builderRun (b : Builder)
  | dockerDaemonRun (d : DockerDaemon)
  deriving DecidableEq

/-- A `grouper.Member`: a name and a runner. -/
structure Member where
  Name : String
  Runner : Runner
  deriving DecidableEq

/-- What `main` calls outside its own file: `url.Parse`, the two reference
parsers of package `helpers`, `os.Stat` (whether it returns a nil error), and
the group: `wait members` is the error received from `process.Wait()` after
`ifrit.Invoke(sigmon.New(grouper.NewParallel(os.Interrupt, members)))`. -/
structure Env where
  urlParse : String → Except String URL
  ParseDockerURL : URL → String × String
  ParseDockerRef : String → String × String
  stat : String → Bool
  wait : List Member → Option String

/-- The end of a run of the process: its exit status, and the members the group
was invoked with (`none` when the group was never invoked). -/
structure Run where
  status : Nat
  invoked : Option (List Member)
  deriving DecidableEq

/-- Ten seconds as a `time.Duration` (nanoseconds). -/
def tenSeconds : Nat := 10 * 1000000000

/-- Lines 92-108 of `main`: the repository name and tag, or the exit. -/
def mainReference (env : Env) (fl : Flags) : Except Exit (String × String) :=
  if fl.dockerImageURL.length > 0 then
    match env.urlParse fl.dockerImageURL with
    | Except.error _ => Except.error ⟨1, "invalid dockerImageURL: " ++ fl.dockerImageURL⟩
    | Except.ok parts => Except.ok (env.ParseDockerURL parts)
  else if fl.dockerRef.length > 0 then
    Except.ok (env.ParseDockerRef fl.dockerRef)
  else
    Except.error ⟨1, "missing flag: dockerImageURL or dockerRef required"⟩

/-- Lines 92-146 of `main`: from the parsed flags to the members of the group,
or to the `os.Exit` that ends the process before the group is built. -/
def mainMembers (env : Env) (fl : Flags) : Except Exit (List Member) :=
  match mainReference env fl with
  | Except.error e => Except.error e
  | Except.ok (repoName, tag) =>
    let builder : Builder :=
      ⟨repoName, tag, fl.dockerRegistryAddresses, fl.insecureDockerRegistries,
        fl.outputFilename, fl.dockerDaemonExecutablePath, tenSeconds, fl.cacheDockerImage,
        fl.dockerLoginServer, fl.dockerRegistryAuthToken, fl.dockerRegistryEmail⟩
    let members : List Member := [⟨"builder", Runner.builderRun builder⟩]
    if fl.cacheDockerImage then
      if fl.dockerRegistryAddresses.length == 0 then
        Except.error ⟨1, "missing flag: dockerRegistryAddresses required"⟩
      else
        match validateCredentials env.urlParse fl.dockerLoginServer
            fl.dockerRegistryAuthToken fl.dockerRegistryEmail with
        | Except.error e => Except.error e
        | Except.ok _ =>
          if !env.stat fl.dockerDaemonExecutablePath then
            Except.error ⟨1, "docker daemon not found in " ++ fl.dockerDaemonExecutablePath⟩
          else
            Except.ok (members ++
              [⟨"docker_daemon", Runner.dockerDaemonRun
                ⟨fl.dockerDaemonExecutablePath, fl.insecureDockerRegistries⟩⟩])
    else
      Except.ok members

/-- Lines 92-160 of `main`: what the process does once the flags are parsed. -/
def mainParsed (env : Env) (fl : Flags) : Run :=
  match mainMembers env fl with
  | Except.error e => ⟨e.status, none⟩
  | Except.ok members =>
    match env.wait members with
    | some _ => ⟨2, some members⟩
    | none => ⟨0, some members⟩

/-- The function `main` on the arguments `os.Args[1:]`. The flag set is made
with `flag.ExitOnError`; when `Parse` returns an error `main` exits with 1. A
panic or an exhausted fuel has no exit status here (`none`). -/
def main (env : Env) (args : List String) : Option Run :=
  match FlagSet.Parse ErrorHandling.ExitOnError Flags.defaults args with
  | ParseOutcome.exited status => some ⟨status, none⟩
  | ParseOutcome.returned (some _) _ => some ⟨1, none⟩
  | ParseOutcome.returned none f => some (mainParsed env f.values)
  | ParseOutcome.panicked _ => none
  | ParseOutcome.outOfFuel => none

/-- The configurations the checks of `main` reject, in the words of the
specification: no image given, an image URL that does not parse, or, with
caching on, no registry address, rejected credentials or a missing daemon. -/
def configRejected (env : Env) (fl : Flags) : Prop :=
  (fl.dockerImageURL = "" ∧ fl.dockerRef = "") ∨
  (fl.dockerImageURL ≠ "" ∧ ∃ e, env.urlParse fl.dockerImageURL = Except.error e) ∨
  (fl.cacheDockerImage = true ∧
    (fl.dockerRegistryAddresses = [] ∨
     (∃ e, validateCredentials env.urlParse fl.dockerLoginServer
        fl.dockerRegistryAuthToken fl.dockerRegistryEmail = Except.error e) ∨
     env.stat fl.dockerDaemonExecutablePath = false))

/-- At least one, but not all three, of the credential flags is non-empty. -/
def partialCredentials (fl : Flags) : Prop :=
  (fl.dockerLoginServer ≠ "" ∨ fl.dockerRegistryAuthToken ≠ "" ∨ fl.dockerRegistryEmail ≠ "") ∧
  ¬ (fl.dockerLoginServer ≠ "" ∧ fl.dockerRegistryAuthToken ≠ "" ∧ fl.dockerRegistryEmail ≠ "")

instance (fl : Flags) : Decidable (partialCredentials fl) := by
  unfold partialCredentials
  infer_instance

/-- An environment for the examples: `url.Parse` accepts its input as a path
(with the text after `#` as the fragment left empty), the reference parsers give
the reference and `latest`, the daemon executable exists and the group ends
without an error. -/
def quietEnv : Env :=
  ⟨fun s => Except.ok ⟨"", s, ""⟩, fun u => (u.Path, "latest"), fun s => (s, "latest"),
    fun _ => true, fun _ => none⟩

/-! ## The group's aggregated outcome -/

/-- Go's `os.Signal` values the sources name. -/
inductive Signal where
  | Interrupt
  | Kill
  deriving DecidableEq

/-- The method `Signal.String()`. -/
def Signal.String : Signal → String
  | Signal.Interrupt => "interrupt"
  | Signal.Kill => "killed"

/-- What ends a runner's wait: a signal on its `signals` channel, or its timer. -/
inductive RunnerEvent where
  | signalled (s : Signal)
  | timedOut
  deriving DecidableEq

/-- The runner `fakeDeamonRunner` of `builder_runner_test.go`: its `select`
returns `errors.New(signal.String())` on a signal and `nil` after its second. -/
def fakeDeamonRunner : RunnerEvent → Option String
  | RunnerEvent.signalled s => some s.String
  | RunnerEvent.timedOut => none

/-- Modelled from the spec: `Builder.Run` (its file is not among the sources)
when a termination request reaches it while it waits for the daemon: it fails
with an interruption error, which the test reads as the signal's name. -/
def builderInterrupted (s : Signal) : Option String := some s.String

/-- The end of one member of a group: its name and its own outcome. -/
structure ExitEvent where
  Member : String
  Err : Option String
  deriving DecidableEq

/-- The line of the aggregated message that names one failing member (the
wording is the one `builder_runner_test.go` expects). -/
def ExitEvent.line (e : ExitEvent) : Option String :=
  e.Err.map (fun err => e.Member ++ " exited with error: " ++ err)

/-- Strings joined with a delimiter between neighbours. -/
def joinWith (delimiter : String) : List String → String
  | [] => ""
  | [a] => a
  | a :: b :: rest => a ++ delimiter ++ joinWith delimiter (b :: rest)

/-- Modelled from the spec: the aggregated outcome of package `grouper`
(vendored, not among the sources): a failure if any member's own outcome is a
failure, and then the message concatenates each failing member's name and
error text, separated by a fixed delimiter; `none` is success. -/
def aggregatedOutcome (delimiter : String) (exits : List ExitEvent) : Option String :=
  match exits.filterMap ExitEvent.line with
  | [] => none
  | l :: ls => some (joinWith delimiter (l :: ls))

/-! ## `helpers/helpers.go`: `FetchMetadata` -/

/-- Go's `strings.TrimPrefix`. -/
def strings.TrimPrefix (s pre : String) : String :=
  if pre.data.isPrefixOf s.data then ⟨s.data.drop pre.data.length⟩ else s

/-- The fields of `registry.RepositoryData` that `FetchMetadata` reads. -/
structure RepositoryData where
  Endpoints : List String
  Tokens : List String
  deriving DecidableEq

/-- An `image.Image`, as far as this file needs one. -/
structure Image where
  ID : String
  deriving DecidableEq

/-- The functions of docker's `registry` and `image` packages that
`FetchMetadata` calls; the remote tag list is a list of (tag, image id). -/
structure Registry where
  ResolveRepositoryName : String → Except String (String × String)
  ExpandAndVerifyRegistryUrl : String → Except String String
  NewSession : String → Except String Unit
  GetRepositoryData : String → Except String RepositoryData
  GetRemoteTags : List String → String → List String → Except String (List (String × String))
  GetRemoteImageJSON : String → String → List String → Except String String
  NewImgJSON : String → Except String Image

/-- A request `FetchMetadata` makes for an image's JSON: image id and endpoint. -/
structure ImageRequest where
  imgID : String
  endpoint : String
  deriving DecidableEq

/-- The loop over `repoData.Endpoints` of `FetchMetadata`, with the requests it
makes. After the loop the outer `err` is nil, which `%s` prints as below. -/
def FetchMetadata.endpoints (reg : Registry) (imgID : String) (tokens : List String) :
    List String → Except String Image × List ImageRequest
  | [] => (Except.error "all endpoints failed: %!s(<nil>)", [])
  | endpoint :: rest =>
    match reg.GetRemoteImageJSON imgID endpoint tokens with
    | Except.ok imgJSON => (reg.NewImgJSON imgJSON, [⟨imgID, endpoint⟩])
    | Except.error _ =>
      ((FetchMetadata.endpoints reg imgID tokens rest).1,
        ⟨imgID, endpoint⟩ :: (FetchMetadata.endpoints reg imgID tokens rest).2)

/-- The function `FetchMetadata(parts *url.URL) (*image.Image, error)`, with
the image-JSON requests it makes. -/
def FetchMetadata (reg : Registry) (parts : URL) : Except String Image × List ImageRequest :=
  let dockerRef :=
    if parts.Host.length == 0 then strings.TrimPrefix parts.Path "/"
    else parts.Host ++ parts.Path
  match reg.ResolveRepositoryName dockerRef with
  | Except.error err => (Except.error err, [])
  | Except.ok (hostname, repoName) =>
    match reg.ExpandAndVerifyRegistryUrl hostname with
    | Except.error err => (Except.error err, [])
    | Except.ok endpoint =>
      match reg.NewSession endpoint with
      | Except.error err => (Except.error err, [])
      | Except.ok _ =>
        let tag := if parts.Fragment.length > 0 then parts.Fragment else "latest"
        match reg.GetRepositoryData repoName with
        | Except.error err => (Except.error err, [])
        | Except.ok repoData =>
          match reg.GetRemoteTags repoData.Endpoints repoName repoData.Tokens with
          | Except.error err => (Except.error err, [])
          | Except.ok tagsList =>
            match tagsList.lookup tag with
            | none => (Except.error ("unknown tag: " ++ repoName ++ ":" ++ tag), [])
            | some imgID => FetchMetadata.endpoints reg imgID repoData.Tokens repoData.Endpoints

/-- The reference `FetchMetadata` resolves: host and path of the URL. -/
def fetchRef (parts : URL) : String :=
  if parts.Host.length == 0 then strings.TrimPrefix parts.Path "/" else parts.Host ++ parts.Path

/-- A registry for the examples: every reference resolves to the index, and
the repository has the one tag `latest`. -/
def sampleRegistry : Registry :=
  ⟨fun r => Except.ok ("index.docker.io", r), fun h => Except.ok ("https://" ++ h ++ "/v1/"),
    fun _ => Except.ok (), fun _ => Except.ok ⟨["https://r1/v1/"], []⟩,
    fun _ _ _ => Except.ok [("latest", "abc123")], fun id _ _ => Except.ok id,
    fun j => Except.ok ⟨j⟩⟩

/-! ## `helpers/helpers.go`: `SaveMetadata` -/

/-- The files and directories of a file system: paths of directories, and
paths of regular files with their content. -/
structure FileSystem where
  dirs : List String
  files : List (String × String)
  deriving DecidableEq

/-- Whether a regular file exists at `name`. -/
def FileSystem.fileExists (fs : FileSystem) (name : String) : Bool :=
  fs.files.any (fun f => f.1 == name)

/-- What `SaveMetadata` calls: `path.Dir`, `json.Marshal` on the metadata, the
JSON text of the `models.StagingDockerResult` that wraps a string, and the
errors the operating system reports to `os.MkdirAll`, `os.Create` and to the
encoder's write (`none`: the call succeeds). -/
structure World (α : Type) where
  pathDir : String → String
  marshal : α → Except String String
  resultJSON : String → String
  mkdirAllFault : Option String
  createFault : Option String
  writeFault : Option String

/-- The step of `SaveMetadata` an error comes from. -/
inductive SaveError where
  | mkdirAll (err : String)
  | marshal (err : String)
  | create (err : String)
  | encode (err : String)
  deriving DecidableEq

/-- The call `os.MkdirAll(dir, 0755)`: it makes directories only. -/
def MkdirAll (fault : Option String) (fs : FileSystem) (dir : String) :
    Except String FileSystem :=
  match fault with
  | some err => Except.error err
  | none =>
    if fs.fileExists dir then Except.error ("mkdir " ++ dir ++ ": not a directory")
    else Except.ok ⟨dir :: fs.dirs, fs.files⟩

/-- The call `os.Create(name)`: the file is created, or truncated if it exists. -/
def Create (fault : Option String) (fs : FileSystem) (name : String) :
    Except String FileSystem :=
  match fault with
  | some err => Except.error err
  | none => Except.ok ⟨fs.dirs, (name, "") :: fs.files.filter (fun f => f.1 != name)⟩

/-- The encoder's write of `text` to the open file `name`; a failed write
leaves the file as it was created. -/
def writeFile (fault : Option String) (fs : FileSystem) (name text : String) :
    Option String × FileSystem :=
  match fault with
  | some err => (some err, fs)
  | none => (none, ⟨fs.dirs, (name, text) :: fs.files.filter (fun f => f.1 != name)⟩)

/-- The function `SaveMetadata(filename, metadata) error`: the error returned
(`none` for `nil`) and the file system afterwards. -/
def SaveMetadata {α : Type} (w : World α) (fs : FileSystem) (filename : String) (metadata : α) :
    Option SaveError × FileSystem :=
  match MkdirAll w.mkdirAllFault fs (w.pathDir filename) with
  | Except.error err => (some (SaveError.mkdirAll err), fs)
  | Except.ok fs1 =>
    match w.marshal metadata with
    | Except.error err => (some (SaveError.marshal err), fs1)
    | Except.ok executionMetadataJSON =>
      match Create w.createFault fs1 filename with
      | Except.error err => (some (SaveError.create err), fs1)
      | Except.ok fs2 =>
        match writeFile w.writeFault fs2 filename (w.resultJSON executionMetadataJSON) with
        | (some err, fs3) => (some (SaveError.encode err), fs3)
        | (none, fs3) => (none, fs3)

/-- A world for the examples in which every call succeeds. -/
def calmWorld : World String :=
  ⟨fun _ => "/tmp/result", fun m => Except.ok m, fun j => "[" ++ j ++ "]", none, none, none⟩

/-- A world for the examples in which the encoder's write fails. -/
def fullDiskWorld : World String :=
  ⟨fun _ => "/tmp/result", fun m => Except.ok m, fun j => "[" ++ j ++ "]", none, none,
    some "write /tmp/result/result.json: no space left on device"⟩

/-- A file system with no file and no directory. -/
def emptyFS : FileSystem := ⟨[], []⟩

/-- Flags for the examples: an image reference, a login server and a token,
no e-mail address, caching off. -/
def partialFlags : Flags :=
  ⟨"", "ubuntu", "/tmp/result/result.json", [], [], "/tmp/docker_app_lifecycle/docker",
    false, "server", "token", ""⟩

/-- The flags of `partialFlags` with caching on and one registry address. -/
def partialCacheFlags : Flags :=
  ⟨"", "ubuntu", "/tmp/result/result.json", [], ["10.0.0.1:5000"],
    "/tmp/docker_app_lifecycle/docker", true, "server", "token", ""⟩

/-! ## Lemmas on the string functions -/

theorem containsChars_iff_infix (s substr : List Char) :
    containsChars s substr = true ↔ substr <:+: s := by
  induction s with
  | nil =>
    cases substr <;> simp [containsChars]
  | cons c cs ih =>
    simp only [containsChars, Bool.or_eq_true, ih, List.isPrefixOf_iff_prefix]
    rw [List.infix_cons_iff]

theorem splitChars_ne_nil (sep : Char) (s : List Char) : splitChars sep s ≠ [] := by
  cases s with
  | nil => simp [splitChars]
  | cons c cs =>
    simp only [splitChars]
    split
    · simp
    · split <;> simp

theorem splitChars_join (sep : Char) (s : List Char) :
    List.intercalate [sep] (splitChars sep s) = s := by
  induction s with
  | nil => simp [splitChars, List.intercalate]
  | cons c cs ih =>
    simp only [splitChars]
    split
    · next h =>
      subst h
      have hne := splitChars_ne_nil c cs
      cases hs : splitChars c cs with
      | nil => exact absurd hs hne
      | cons p ps =>
        rw [hs] at ih
        simp only [List.intercalate, List.intersperse, List.flatten] at ih ⊢
        simp [ih]
    · next h =>
      have hne := splitChars_ne_nil sep cs
      cases hs : splitChars sep cs with
      | nil => exact absurd hs hne
      | cons p ps =>
        rw [hs] at ih
        cases ps with
        | nil =>
          simp only [List.intercalate, List.intersperse, List.flatten] at ih ⊢
          simp at ih ⊢
          exact ih
        | cons q qs =>
          simp only [List.intercalate, List.intersperse, List.flatten] at ih ⊢
          simp at ih ⊢
          exact ih

theorem splitChars_no_sep (sep : Char) (s : List Char) :
    ∀ p ∈ splitChars sep s, sep ∉ p := by
  induction s with
  | nil => simp [splitChars]
  | cons c cs ih =>
    simp only [splitChars]
    split
    · intro p hp
      rcases List.mem_cons.mp hp with h | h
      · subst h; simp
      · exact ih p h
    · next hc =>
      cases hs : splitChars sep cs with
      | nil => simp [Ne.symm hc]
      | cons q qs =>
        rw [hs] at ih
        intro p hp
        rcases List.mem_cons.mp hp with h | h
        · subst h
          have := ih q (List.mem_cons_self _ _)
          simp [Ne.symm hc, this]
        · exact ih p (List.mem_cons_of_mem _ h)

/-! ## Lemmas on `registries.Set` -/

theorem setLoop_nil_iff (r : registries) (l : List String) :
    (registries.setLoop r l).1 = none ↔
      ∀ reg ∈ l, strings.Contains (strings.TrimSpace reg) ":" = true ∧
        strings.Contains (strings.TrimSpace reg) "://" = false := by
  induction l generalizing r with
  | nil => simp [registries.setLoop]
  | cons reg rest ih =>
    simp only [registries.setLoop, List.mem_cons, forall_eq_or_imp]
    by_cases h1 : strings.Contains (strings.TrimSpace reg) "://" = true
    · simp [h1]
    · by_cases h2 : strings.Contains (strings.TrimSpace reg) ":" = true
      · simp [h1, h2, ih]
      · simp [h1, h2]

theorem setLoop_receiver (r : registries) (l : List String)
    (h : (registries.setLoop r l).1 = none) :
    (registries.setLoop r l).2 = r ++ l.map strings.TrimSpace := by
  induction l generalizing r with
  | nil => simp [registries.setLoop]
  | cons reg rest ih =>
    simp only [registries.setLoop] at h ⊢
    by_cases h1 : strings.Contains (strings.TrimSpace reg) "://" = true
    · simp [h1] at h
    · by_cases h2 : strings.Contains (strings.TrimSpace reg) ":" = true
      · simp only [h1, h2, Bool.false_eq_true, if_false, Bool.not_true] at h ⊢
        rw [ih _ h]
        simp
      · simp [h1, h2] at h

/-! ## Lemmas on white space, trimming and splitting -/

theorem isSpace_iff (c : Char) : isSpace c = true ↔ WhiteSpace c := by
  simp only [isSpace, WhiteSpace, whiteSpaceCodePoints, Bool.or_eq_true, Bool.and_eq_true,
    beq_iff_eq, decide_eq_true_eq, List.mem_cons, List.mem_singleton]
  generalize c.toNat = n
  simp only [List.not_mem_nil, or_false]
  omega


theorem dropWhile_append_all (p : Char → Bool) (pre l : List Char)
    (h : ∀ c ∈ pre, p c = true) : (pre ++ l).dropWhile p = l.dropWhile p := by
  induction pre with
  | nil => rfl
  | cons a as ih =>
    have ha : p a = true := h a (List.mem_cons_self _ _)
    simp only [List.cons_append, List.dropWhile_cons, ha, if_true]
    exact ih (fun c hc => h c (List.mem_cons_of_mem _ hc))

theorem dropWhile_all (p : Char → Bool) (l : List Char) (h : ∀ c ∈ l, p c = true) :
    l.dropWhile p = [] := by
  have := dropWhile_append_all p l [] h
  simpa using this

theorem dropWhile_head_not (p : Char → Bool) (l : List Char)
    (h : ∀ c, l.head? = some c → p c = false) : l.dropWhile p = l := by
  cases l with
  | nil => rfl
  | cons a as =>
    have ha : p a = false := h a rfl
    simp [List.dropWhile_cons, ha]

theorem head_dropWhile_not (p : Char → Bool) (l : List Char) (c : Char)
    (h : (l.dropWhile p).head? = some c) : p c = false := by
  induction l with
  | nil => simp at h
  | cons a as ih =>
    by_cases ha : p a = true
    · simp only [List.dropWhile_cons, ha, if_true] at h
      exact ih h
    · simp only [List.dropWhile_cons, ha, if_false, Bool.false_eq_true] at h
      simp only [List.head?_cons, Option.some.injEq] at h
      subst h
      simpa using ha

theorem trimSpaceChars_unique (t s pre post : List Char) (hs : s = pre ++ t ++ post)
    (hpre : ∀ c ∈ pre, isSpace c = true) (hpost : ∀ c ∈ post, isSpace c = true)
    (hhead : ∀ c, t.head? = some c → isSpace c = false)
    (hlast : ∀ c, t.getLast? = some c → isSpace c = false) :
    trimSpaceChars s = t := by
  subst hs
  unfold trimSpaceChars
  rw [List.append_assoc, dropWhile_append_all isSpace pre _ hpre]
  cases t with
  | nil =>
    simp only [List.nil_append]
    rw [dropWhile_all isSpace post hpost]
    rfl
  | cons a as =>
    have h1 : ((a :: as) ++ post).dropWhile isSpace = (a :: as) ++ post :=
      dropWhile_head_not isSpace _ (fun c hc => hhead c (by simpa using hc))
    rw [h1, List.reverse_append,
      dropWhile_append_all isSpace post.reverse _ (fun c hc => hpost c (by simpa using hc))]
    rw [dropWhile_head_not isSpace (a :: as).reverse
      (fun c hc => hlast c (by rw [← List.head?_reverse]; exact hc))]
    exact List.reverse_reverse _

theorem trimSpaceChars_spec (s : List Char) :
    ∃ pre post : List Char, s = pre ++ trimSpaceChars s ++ post ∧
      (∀ c ∈ pre, isSpace c = true) ∧ (∀ c ∈ post, isSpace c = true) ∧
      (∀ c, (trimSpaceChars s).head? = some c → isSpace c = false) ∧
      (∀ c, (trimSpaceChars s).getLast? = some c → isSpace c = false) := by
  have hd : s.dropWhile isSpace =
      trimSpaceChars s ++ ((s.dropWhile isSpace).reverse.takeWhile isSpace).reverse := by
    unfold trimSpaceChars
    rw [← List.reverse_append, List.takeWhile_append_dropWhile, List.reverse_reverse]
  refine ⟨s.takeWhile isSpace, ((s.dropWhile isSpace).reverse.takeWhile isSpace).reverse,
    ?_, ?_, ?_, ?_, ?_⟩
  · rw [List.append_assoc, ← hd, List.takeWhile_append_dropWhile]
  · intro c hc
    exact (List.mem_takeWhile_imp hc)
  · intro c hc
    exact List.mem_takeWhile_imp (List.mem_reverse.mp hc)
  · intro c hc
    apply head_dropWhile_not isSpace s c
    rw [hd]
    cases ht : trimSpaceChars s with
    | nil => rw [ht] at hc; simp at hc
    | cons a as => rw [ht] at hc; simpa using hc
  · intro c hc
    apply head_dropWhile_not isSpace (s.dropWhile isSpace).reverse c
    unfold trimSpaceChars at hc
    rw [List.getLast?_reverse] at hc
    exact hc


theorem splitChars_of_not_mem (sep : Char) (p : List Char) (h : sep ∉ p) :
    splitChars sep p = [p] := by
  induction p with
  | nil => rfl
  | cons c cs ih =>
    have hc : c ≠ sep := fun e => h (by simp [e])
    have hcs : sep ∉ cs := fun e => h (List.mem_cons_of_mem _ e)
    simp [splitChars, hc, ih hcs]

theorem splitChars_append_sep (sep : Char) (p rest : List Char) (h : sep ∉ p) :
    splitChars sep (p ++ sep :: rest) = p :: splitChars sep rest := by
  induction p with
  | nil => simp [splitChars]
  | cons c cs ih =>
    have hc : c ≠ sep := fun e => h (by simp [e])
    have hcs : sep ∉ cs := fun e => h (List.mem_cons_of_mem _ e)
    simp [splitChars, hc, ih hcs]

theorem intercalate_cons_cons (sep : Char) (p q : List Char) (ps : List (List Char)) :
    List.intercalate [sep] (p :: q :: ps) = p ++ sep :: List.intercalate [sep] (q :: ps) := by
  simp [List.intercalate, List.intersperse, List.flatten]

theorem splitChars_intercalate (sep : Char) (ps : List (List Char)) (hne : ps ≠ [])
    (h : ∀ p ∈ ps, sep ∉ p) : splitChars sep (List.intercalate [sep] ps) = ps := by
  induction ps with
  | nil => exact absurd rfl hne
  | cons p qs ih =>
    cases qs with
    | nil =>
      have : List.intercalate [sep] [p] = p := by
        simp [List.intercalate, List.intersperse, List.flatten]
      rw [this]
      exact splitChars_of_not_mem sep p (h p (List.mem_cons_self _ _))
    | cons q qs =>
      rw [intercalate_cons_cons, splitChars_append_sep sep p _ (h p (List.mem_cons_self _ _)),
        ih (by simp) (fun x hx => h x (List.mem_cons_of_mem _ hx))]

theorem Split_isCommaPieces (value : String) : IsCommaPieces value (strings.Split value ',') := by
  refine ⟨?_, ?_, ?_⟩
  · simp [strings.Split, splitChars_ne_nil]
  · intro p hp
    simp only [strings.Split, List.mem_map] at hp
    obtain ⟨l, hl, rfl⟩ := hp
    exact splitChars_no_sep ',' value.data l hl
  · have : (strings.Split value ',').map String.data = splitChars ',' value.data := by
      simp [strings.Split, Function.comp_def]
    rw [this]
    exact splitChars_join ',' value.data

theorem isCommaPieces_unique (value : String) (pieces : List String)
    (h : IsCommaPieces value pieces) : pieces = strings.Split value ',' := by
  obtain ⟨hne, hno, hjoin⟩ := h
  have h1 : splitChars ',' value.data = pieces.map String.data := by
    rw [← hjoin]
    apply splitChars_intercalate
    · simpa using hne
    · intro p hp
      simp only [List.mem_map] at hp
      obtain ⟨q, hq, rfl⟩ := hp
      exact hno q hq
  simp [strings.Split, h1, Function.comp_def]

theorem TrimSpace_isTrimOf (s : String) : IsTrimOf (strings.TrimSpace s) s := by
  obtain ⟨pre, post, h1, h2, h3, h4, h5⟩ := trimSpaceChars_spec s.data
  refine ⟨pre, post, h1, fun c hc => (isSpace_iff c).mp (h2 c hc),
    fun c hc => (isSpace_iff c).mp (h3 c hc), ?_, ?_⟩
  · intro c hc hw
    have := h4 c hc
    rw [(isSpace_iff c).mpr hw] at this
    cases this
  · intro c hc hw
    have := h5 c hc
    rw [(isSpace_iff c).mpr hw] at this
    cases this

theorem isTrimOf_unique (t s : String) (h : IsTrimOf t s) : t = strings.TrimSpace s := by
  obtain ⟨pre, post, h1, h2, h3, h4, h5⟩ := h
  have hns : ∀ c, ¬ WhiteSpace c → isSpace c = false := by
    intro c hc
    cases hsp : isSpace c with
    | false => rfl
    | true => exact absurd ((isSpace_iff c).mp hsp) hc
  have := trimSpaceChars_unique t.data s.data pre post h1
    (fun c hc => (isSpace_iff c).mpr (h2 c hc)) (fun c hc => (isSpace_iff c).mpr (h3 c hc))
    (fun c hc => hns c (h4 c hc)) (fun c hc => hns c (h5 c hc))
  exact String.ext (by simp [strings.TrimSpace, this])

theorem forall₂_isTrimOf_unique (trimmed pieces : List String)
    (h : List.Forall₂ IsTrimOf trimmed pieces) : trimmed = pieces.map strings.TrimSpace := by
  induction h with
  | nil => rfl
  | cons hab _ ih => simp [isTrimOf_unique _ _ hab, ih]

theorem forall₂_isTrimOf_map (pieces : List String) :
    List.Forall₂ IsTrimOf (pieces.map strings.TrimSpace) pieces := by
  induction pieces with
  | nil => exact List.Forall₂.nil
  | cons p ps ih => exact List.Forall₂.cons (TrimSpace_isTrimOf p) ih

theorem wellFormedAddress_iff (p : String) :
    (strings.Contains p ":" = true ∧ strings.Contains p "://" = false) ↔ WellFormedAddress p := by
  simp only [strings.Contains, WellFormedAddress, ← containsChars_iff_infix]
  simp

/-! ## `registries.Set` -/

/-- C7: `registries.Set` returns nil exactly when the receiver is empty
beforehand and every comma-separated piece of the value, trimmed of surrounding
white space, contains `:` and does not contain `://`; and when it returns nil
the receiver afterwards is the list of the trimmed pieces in their order. The
pieces and their trimmings are the ones `strings.Split` and `strings.TrimSpace`
compute (first two parts); they exist, and the same holds for any list that is
the comma-separated pieces of the value and any list of their trimmings
(third and fourth part); the last part is one value with white space around
its two addresses. -/
theorem registries_Set_accepts_iff (r : registries) (value : String) :
    ((registries.Set r value).1 = none ↔
      r = [] ∧ ∀ p ∈ (strings.Split value ',').map strings.TrimSpace,
        strings.Contains p ":" = true ∧ strings.Contains p "://" = false) ∧
    ((registries.Set r value).1 = none →
      (registries.Set r value).2 = (strings.Split value ',').map strings.TrimSpace) ∧
    (∃ pieces trimmed, IsCommaPieces value pieces ∧ List.Forall₂ IsTrimOf trimmed pieces) ∧
    (∀ pieces trimmed, IsCommaPieces value pieces → List.Forall₂ IsTrimOf trimmed pieces →
      ((registries.Set r value).1 = none ↔ r = [] ∧ ∀ p ∈ trimmed, WellFormedAddress p) ∧
      ((registries.Set r value).1 = none → (registries.Set r value).2 = trimmed)) ∧
    registries.Set [] " 10.0.0.1:5000 ,\t10.0.0.2:5000\n" =
      (none, ["10.0.0.1:5000", "10.0.0.2:5000"]) := by
  have hA : (registries.Set r value).1 = none ↔
      r = [] ∧ ∀ p ∈ (strings.Split value ',').map strings.TrimSpace,
        strings.Contains p ":" = true ∧ strings.Contains p "://" = false := by
    cases r with
    | nil =>
      simp only [registries.Set, List.length_nil, gt_iff_lt, lt_self_iff_false, if_false,
        true_and, List.mem_map, forall_exists_index, and_imp, forall_apply_eq_imp_iff₂]
      exact setLoop_nil_iff _ _
    | cons a l => simp [registries.Set]
  have hB : (registries.Set r value).1 = none →
      (registries.Set r value).2 = (strings.Split value ',').map strings.TrimSpace := by
    cases r with
    | nil =>
      simp only [registries.Set, List.length_nil, gt_iff_lt, lt_self_iff_false, if_false]
      intro h
      simpa using setLoop_receiver [] _ h
    | cons a l => simp [registries.Set]
  refine ⟨hA, hB, ⟨_, _, Split_isCommaPieces value, forall₂_isTrimOf_map _⟩, ?_, by decide⟩
  intro pieces trimmed hp ht
  have h1 := isCommaPieces_unique value pieces hp
  subst h1
  have h2 := forall₂_isTrimOf_unique trimmed _ ht
  subst h2
  refine ⟨?_, hB⟩
  rw [hA]
  constructor
  · rintro ⟨hr, hall⟩
    exact ⟨hr, fun p hp => (wellFormedAddress_iff p).mp (hall p hp)⟩
  · rintro ⟨hr, hall⟩
    exact ⟨hr, fun p hp => (wellFormedAddress_iff p).mpr (hall p hp)⟩

/-! ## `validateCredentials` -/

theorem length_eq_zero_iff (s : String) : s.length = 0 ↔ s = "" := by
  constructor
  · intro h
    have hd : s.data = [] := List.length_eq_zero.mp h
    exact String.ext hd
  · intro h
    subst h
    rfl

theorem validateCredentials_cases (urlParse : String → Except String URL)
    (server token email : String) :
    (validateCredentials urlParse server token email = Except.ok () ↔
      (server = "" ∧ token = "" ∧ email = "") ∨
      (server ≠ "" ∧ token ≠ "" ∧ email ≠ "" ∧ (∃ u, urlParse server = Except.ok u) ∧
        strings.Contains email "@" = true ∧ strings.Contains email "." = true)) ∧
    (validateCredentials urlParse server token email ≠ Except.ok () →
      ∃ msg, validateCredentials urlParse server token email = Except.error ⟨1, msg⟩) := by
  have hs := length_eq_zero_iff server
  have ht := length_eq_zero_iff token
  have he := length_eq_zero_iff email
  by_cases h1 : server = "" <;> by_cases h2 : token = "" <;> by_cases h3 : email = "" <;>
    simp only [validateCredentials] <;>
    cases hu : urlParse server <;>
    by_cases h4 : strings.Contains email "@" = true <;>
    by_cases h5 : strings.Contains email "." = true <;>
    simp_all [Nat.pos_iff_ne_zero]

/-- C4, as amended: when login server, token and e-mail address are all
non-empty, the server parses as a URL and the e-mail address contains both `@`
and `.`, `validateCredentials` returns normally. -/
theorem validateCredentials_complete (urlParse : String → Except String URL)
    (server token email : String) (u : URL)
    (hs : server ≠ "") (ht : token ≠ "") (he : email ≠ "")
    (hu : urlParse server = Except.ok u)
    (hat : strings.Contains email "@" = true) (hdot : strings.Contains email "." = true) :
    validateCredentials urlParse server token email = Except.ok () :=
  ((validateCredentials_cases urlParse server token email).1).mpr
    (Or.inr ⟨hs, ht, he, ⟨u, hu⟩, hat, hdot⟩)

/-- C4, witness: a registry URL, a token and an address with `@` and `.`. -/
theorem validateCredentials_complete_witness :
    ("https://registry.example.com" ≠ "" ∧ "token" ≠ "" ∧ "user@example.com" ≠ "") ∧
    validateCredentials quietEnv.urlParse "https://registry.example.com" "token"
      "user@example.com" = Except.ok () :=
  ⟨by decide, validateCredentials_complete quietEnv.urlParse "https://registry.example.com"
    "token" "user@example.com" ⟨"", "https://registry.example.com", ""⟩
    (by decide) (by decide) (by decide) rfl (by decide) (by decide)⟩

/-- C4, as stated, fails: the test's triple is complete, yet
`validateCredentials` ends the process with status 1, because the e-mail
address `email` has neither `@` nor `.`. -/
theorem validateCredentials_test_triple_rejected :
    ("server" ≠ "" ∧ "token" ≠ "" ∧ "email" ≠ "") ∧
    validateCredentials quietEnv.urlParse "server" "token" "email" =
      Except.error ⟨1, "invalid dockerRegistryEmail [email]"⟩ :=
  ⟨by decide, rfl⟩

/-- C9: `validateCredentials` returns normally exactly when all three values
are empty, or all three are non-empty, the server parses as a URL and the
e-mail address contains both `@` and `.`; in every other case it ends the
process with exit status 1. -/
theorem validateCredentials_returns_iff (urlParse : String → Except String URL)
    (server token email : String) :
    (validateCredentials urlParse server token email = Except.ok () ↔
      (server = "" ∧ token = "" ∧ email = "") ∨
      (server ≠ "" ∧ token ≠ "" ∧ email ≠ "" ∧ (∃ u, urlParse server = Except.ok u) ∧
        strings.Contains email "@" = true ∧ strings.Contains email "." = true)) ∧
    (validateCredentials urlParse server token email ≠ Except.ok () →
      ∃ msg, validateCredentials urlParse server token email = Except.error ⟨1, msg⟩) :=
  validateCredentials_cases urlParse server token email

/-! ## The exit status of `main` -/

theorem validateCredentials_partial (urlParse : String → Except String URL)
    (server token email : String)
    (h1 : server ≠ "" ∨ token ≠ "" ∨ email ≠ "")
    (h2 : ¬ (server ≠ "" ∧ token ≠ "" ∧ email ≠ "")) :
    ∃ msg, validateCredentials urlParse server token email = Except.error ⟨1, msg⟩ := by
  apply (validateCredentials_cases urlParse server token email).2
  intro h
  rcases (validateCredentials_cases urlParse server token email).1.mp h with h3 | h3
  · rcases h1 with h1 | h1 | h1
    · exact h1 h3.1
    · exact h1 h3.2.1
    · exact h1 h3.2.2
  · exact h2 ⟨h3.1, h3.2.1, h3.2.2.1⟩

theorem validateCredentials_ok_or_exit (urlParse : String → Except String URL)
    (server token email : String) :
    validateCredentials urlParse server token email = Except.ok () ∨
    ∃ msg, validateCredentials urlParse server token email = Except.error ⟨1, msg⟩ := by
  by_cases h : validateCredentials urlParse server token email = Except.ok ()
  · exact Or.inl h
  · exact Or.inr ((validateCredentials_cases urlParse server token email).2 h)

theorem mainReference_cases (env : Env) (fl : Flags) :
    ((fl.dockerImageURL = "" ∧ fl.dockerRef = "") ∨
      (fl.dockerImageURL ≠ "" ∧ ∃ e, env.urlParse fl.dockerImageURL = Except.error e) →
        ∃ msg, mainReference env fl = Except.error ⟨1, msg⟩) ∧
    (¬ ((fl.dockerImageURL = "" ∧ fl.dockerRef = "") ∨
      (fl.dockerImageURL ≠ "" ∧ ∃ e, env.urlParse fl.dockerImageURL = Except.error e)) →
        ∃ rt, mainReference env fl = Except.ok rt) := by
  have h1 := length_eq_zero_iff fl.dockerImageURL
  have h2 := length_eq_zero_iff fl.dockerRef
  simp only [mainReference]
  by_cases hu : fl.dockerImageURL = "" <;> by_cases hr : fl.dockerRef = "" <;>
    cases hp : env.urlParse fl.dockerImageURL <;>
    simp_all [Nat.pos_iff_ne_zero]

theorem mainMembers_rejected (env : Env) (fl : Flags) (h : configRejected env fl) :
    ∃ msg, mainMembers env fl = Except.error ⟨1, msg⟩ := by
  by_cases href : (fl.dockerImageURL = "" ∧ fl.dockerRef = "") ∨
      (fl.dockerImageURL ≠ "" ∧ ∃ e, env.urlParse fl.dockerImageURL = Except.error e)
  · obtain ⟨msg, hm⟩ := (mainReference_cases env fl).1 href
    exact ⟨msg, by simp [mainMembers, hm]⟩
  · obtain ⟨rt, hm⟩ := (mainReference_cases env fl).2 href
    have hc : fl.cacheDockerImage = true ∧
        (fl.dockerRegistryAddresses = [] ∨
         (∃ e, validateCredentials env.urlParse fl.dockerLoginServer
            fl.dockerRegistryAuthToken fl.dockerRegistryEmail = Except.error e) ∨
         env.stat fl.dockerDaemonExecutablePath = false) := by
      rcases h with h | h | h
      · exact absurd (Or.inl h) href
      · exact absurd (Or.inr h) href
      · exact h
    obtain ⟨hcache, hrest⟩ := hc
    by_cases ha : fl.dockerRegistryAddresses = []
    · simp [mainMembers, hm, hcache, ha]
    · rcases validateCredentials_ok_or_exit env.urlParse fl.dockerLoginServer
        fl.dockerRegistryAuthToken fl.dockerRegistryEmail with hv | ⟨msg, hv⟩
      · have hstat : env.stat fl.dockerDaemonExecutablePath = false := by
          rcases hrest with h | ⟨e, h⟩ | h
          · exact absurd h ha
          · rw [hv] at h; cases h
          · exact h
        simp [mainMembers, hm, hcache, ha, hv, hstat]
      · exact ⟨msg, by simp [mainMembers, hm, hcache, ha, hv]⟩

theorem mainMembers_accepted (env : Env) (fl : Flags) (h : ¬ configRejected env fl) :
    ∃ members, mainMembers env fl = Except.ok members := by
  have href : ¬ ((fl.dockerImageURL = "" ∧ fl.dockerRef = "") ∨
      (fl.dockerImageURL ≠ "" ∧ ∃ e, env.urlParse fl.dockerImageURL = Except.error e)) := by
    intro h2
    apply h
    rcases h2 with h2 | h2
    · exact Or.inl h2
    · exact Or.inr (Or.inl h2)
  obtain ⟨rt, hm⟩ := (mainReference_cases env fl).2 href
  by_cases hcache : fl.cacheDockerImage = true
  · have ha : fl.dockerRegistryAddresses ≠ [] := fun ha => h (Or.inr (Or.inr ⟨hcache, Or.inl ha⟩))
    have hstat : env.stat fl.dockerDaemonExecutablePath = true := by
      cases hst : env.stat fl.dockerDaemonExecutablePath
      · exact absurd (Or.inr (Or.inr ⟨hcache, Or.inr (Or.inr hst)⟩)) h
      · rfl
    rcases validateCredentials_ok_or_exit env.urlParse fl.dockerLoginServer
        fl.dockerRegistryAuthToken fl.dockerRegistryEmail with hv | ⟨msg, hv⟩
    · simp [mainMembers, hm, hcache, ha, hv, hstat]
    · exact absurd (Or.inr (Or.inr ⟨hcache, Or.inr (Or.inl ⟨_, hv⟩)⟩)) h
  · simp [mainMembers, hm, hcache]

/-- C1: for every parsed flag set, if the checks of `main` reject the
configuration the process exits with status 1 and the group is never invoked;
otherwise the group is invoked and the exit status is 2 if its aggregated
outcome is an error and 0 if it is nil. -/
theorem main_exit_status (env : Env) (fl : Flags) :
    (configRejected env fl → mainParsed env fl = ⟨1, none⟩) ∧
    (¬ configRejected env fl →
      ∃ members, mainMembers env fl = Except.ok members ∧
        ((∃ err, env.wait members = some err) → mainParsed env fl = ⟨2, some members⟩) ∧
        (env.wait members = none → mainParsed env fl = ⟨0, some members⟩)) := by
  constructor
  · intro h
    obtain ⟨msg, hm⟩ := mainMembers_rejected env fl h
    simp [mainParsed, hm]
  · intro h
    obtain ⟨members, hm⟩ := mainMembers_accepted env fl h
    refine ⟨members, hm, ?_, ?_⟩
    · rintro ⟨err, hw⟩
      simp [mainParsed, hm, hw]
    · intro hw
      simp [mainParsed, hm, hw]

/-- C3, as amended: with `cacheDockerImage` set, whenever at least one but not
all three of the credential flags are non-empty the process exits with status
1 and the group is never invoked. -/
theorem partial_credentials_rejected_when_caching (env : Env) (fl : Flags)
    (hc : fl.cacheDockerImage = true) (hp : partialCredentials fl) :
    mainParsed env fl = ⟨1, none⟩ := by
  obtain ⟨msg, hv⟩ := validateCredentials_partial env.urlParse fl.dockerLoginServer
    fl.dockerRegistryAuthToken fl.dockerRegistryEmail hp.1 hp.2
  obtain ⟨m, hm⟩ := mainMembers_rejected env fl
    (Or.inr (Or.inr ⟨hc, Or.inr (Or.inl ⟨_, hv⟩)⟩))
  simp [mainParsed, hm]

/-- C3, witness: a server and a token without an e-mail address, caching on. -/
theorem partial_credentials_rejected_when_caching_witness :
    (partialCacheFlags.cacheDockerImage = true ∧ partialCredentials partialCacheFlags) ∧
    mainParsed quietEnv partialCacheFlags = ⟨1, none⟩ :=
  ⟨⟨rfl, by decide⟩,
    partial_credentials_rejected_when_caching quietEnv partialCacheFlags rfl (by decide)⟩

/-- C3, as stated, fails: with a server and a token but no e-mail address and
`cacheDockerImage` unset, the flags parse, the builder is started and the
process ends with the group's status (here 0), not with 1. -/
theorem partial_credentials_without_caching_run :
    FlagSet.Parse ErrorHandling.ExitOnError Flags.defaults
      ["-dockerRef", "ubuntu", "-dockerLoginServer", "server",
        "-dockerRegistryAuthToken", "token"] = ParseOutcome.returned none ⟨partialFlags, []⟩ ∧
    partialCredentials partialFlags ∧
    mainParsed quietEnv partialFlags =
      ⟨0, some [⟨"builder", Runner.builderRun ⟨"ubuntu", "latest", [], [],
        "/tmp/result/result.json", "/tmp/docker_app_lifecycle/docker", tenSeconds, false,
        "server", "token", ""⟩⟩]⟩ :=
  ⟨by decide, by decide, by decide⟩

/-! ## The flag set always ends its parse -/

theorem takeValue_length (v : Option String) (rest : List String) :
    (FlagSet.takeValue v rest).2.length ≤ rest.length := by
  cases v with
  | some value => simp [FlagSet.takeValue]
  | none =>
    cases rest with
    | nil => simp [FlagSet.takeValue]
    | cons a l => simp [FlagSet.takeValue]

theorem parseFlag_args (f : FlagSet) (s : String) (rest : List String) (name : List Char)
    (h : (FlagSet.parseFlag f s rest name).1 = true) :
    (FlagSet.parseFlag f s rest name).2.2.args.length ≤ rest.length := by
  have htv := takeValue_length (FlagSet.splitName name).2 rest
  unfold FlagSet.parseFlag at h ⊢
  split at h
  · simp at h
  · split at h
    · simp at h
    · split at h
      · split at h <;> simp at h
      · split at h
        · split at h
          · simp at h
          · simp_all
        · simp_all
      · split at h
        · simp at h
        · split at h
          · simp at h
          · simp_all

theorem parseOne_args_lt (f : FlagSet) (h : (FlagSet.parseOne f).1 = true) :
    (FlagSet.parseOne f).2.2.args.length < f.args.length := by
  unfold FlagSet.parseOne at h ⊢
  cases hargs : f.args with
  | nil => simp [hargs] at h
  | cons s rest =>
    simp only [hargs] at h ⊢
    cases hd : s.data with
    | nil => simp [hd] at h
    | cons c0 t =>
      cases t with
      | nil => simp [hd] at h
      | cons c1 cs =>
        simp only [hd] at h ⊢
        by_cases h0 : (c0 != '-') = true
        · simp [h0] at h
        · by_cases h1 : c1 = '-' ∧ cs = []
          · simp [h0, h1] at h
          · simp only [h0, h1, if_false, Bool.false_eq_true] at h ⊢
            have := parseFlag_args f s rest _ h
            simp only [List.length_cons]
            omega

theorem parseLoop_fuel (n : Nat) (f : FlagSet) (h : f.args.length < n) :
    FlagSet.parseLoop n f ≠ none := by
  induction n generalizing f with
  | zero => omega
  | succ n ih =>
    simp only [FlagSet.parseLoop]
    split
    · next f2 heq =>
      have hlt := parseOne_args_lt f (by rw [heq])
      rw [heq] at hlt
      exact ih f2 (by simp at hlt; omega)
    · simp

theorem Parse_returns (errorHandling : ErrorHandling) (values : Flags) (args : List String) :
    FlagSet.Parse errorHandling values args ≠ ParseOutcome.outOfFuel := by
  have h := parseLoop_fuel (args.length + 1) ⟨values, args⟩ (by simp)
  simp only [FlagSet.Parse]
  split
  · next heq => exact absurd heq h
  · simp
  · split
    · simp
    · split <;> simp
    · simp

theorem main_total (env : Env) (args : List String) : ∃ r, main env args = some r := by
  have h := parseLoop_fuel (args.length + 1) ⟨Flags.defaults, args⟩ (by simp)
  simp only [main, FlagSet.Parse]
  cases hl : FlagSet.parseLoop (args.length + 1) ⟨Flags.defaults, args⟩ with
  | none => exact absurd hl h
  | some r =>
    obtain ⟨e, g⟩ := r
    cases e with
    | none => simp
    | some e2 => by_cases hh : e2 = FlagError.help <;> simp [hh]

/-! ## Arguments the flag set does not parse -/

theorem main_of_parse_error (env : Env) (args : List String) (err : FlagError) (f : FlagSet)
    (h : FlagSet.Parse ErrorHandling.ContinueOnError Flags.defaults args =
      ParseOutcome.returned (some err) f) :
    main env args = some ⟨if err = FlagError.help then 0 else 2, none⟩ := by
  simp only [FlagSet.Parse] at h
  simp only [main, FlagSet.Parse]
  cases hl : FlagSet.parseLoop (args.length + 1) ⟨Flags.defaults, args⟩ with
  | none => simp [hl] at h
  | some r =>
    obtain ⟨e, g⟩ := r
    cases e with
    | none => simp [hl] at h
    | some e2 =>
      simp only [hl, ParseOutcome.returned.injEq, Option.some.injEq] at h
      obtain ⟨h1, _⟩ := h
      subst h1
      by_cases hh : e2 = FlagError.help <;> simp [hh]

/-- C2, on the code: whenever the flag set fails to parse the arguments, the
`ExitOnError` flag set ends the process itself, with status 2 (0 for the help
flag), before `main` reaches its own `os.Exit(1)`; no member is started. So
for an unknown flag, a registry with a scheme, a registry without `:` and a
registries flag given twice the exit status is 2, not 1. -/
theorem parse_failure_exit_status :
    (∀ (env : Env) (args : List String) (err : FlagError) (f : FlagSet),
      FlagSet.Parse ErrorHandling.ContinueOnError Flags.defaults args =
        ParseOutcome.returned (some err) f →
      main env args = some ⟨if err = FlagError.help then 0 else 2, none⟩) ∧
    main quietEnv ["-bogus"] = some ⟨2, none⟩ ∧
    main quietEnv ["-dockerRef", "ubuntu", "-dockerRegistryAddresses", "http://10.0.0.1:5000"] =
      some ⟨2, none⟩ ∧
    main quietEnv ["-dockerRef", "ubuntu", "-insecureDockerRegistries", "localhost"] =
      some ⟨2, none⟩ ∧
    main quietEnv ["-dockerRef", "ubuntu", "-dockerRegistryAddresses", "10.0.0.1:5000",
      "-dockerRegistryAddresses", "10.0.0.2:5000"] = some ⟨2, none⟩ :=
  ⟨main_of_parse_error, by decide, by decide, by decide, by decide⟩

/-! ## `SaveMetadata` -/

theorem fileExists_cons_self (dirs : List String) (name text : String)
    (files : List (String × String)) :
    FileSystem.fileExists ⟨dirs, (name, text) :: files⟩ name = true := by
  simp [FileSystem.fileExists]

theorem SaveMetadata_file_iff {α : Type} (w : World α) (fs : FileSystem) (filename : String)
    (metadata : α) (h : fs.fileExists filename = false) :
    (SaveMetadata w fs filename metadata).2.fileExists filename = true ↔
      ((SaveMetadata w fs filename metadata).1 = none ∨
        ∃ err, (SaveMetadata w fs filename metadata).1 = some (SaveError.encode err)) := by
  have hf : ∀ dirs : List String, FileSystem.fileExists ⟨dirs, fs.files⟩ filename = false := by
    intro dirs
    simpa [FileSystem.fileExists] using h
  simp only [SaveMetadata, MkdirAll, Create, writeFile]
  cases hm : w.mkdirAllFault with
  | some e => simp [h]
  | none =>
    by_cases hd : fs.fileExists (w.pathDir filename) = true
    · simp [hd, h]
    · cases hj : w.marshal metadata with
      | error e => simp [hd, hf]
      | ok j =>
        cases hc : w.createFault with
        | some e => simp [hd, hf]
        | none =>
          cases hw : w.writeFault with
          | some e => simp [hd, fileExists_cons_self]
          | none => simp [hd, fileExists_cons_self]

/-- C5, as amended: when no file exists at `filename` beforehand, a file
exists there after `SaveMetadata` exactly when it returned nil or returned an
error from encoding; after an error from directory creation, JSON marshalling
or file creation no file exists at `filename`. -/
theorem SaveMetadata_file_absent_unless_created {α : Type} (w : World α) (fs : FileSystem)
    (filename : String) (metadata : α) (h : fs.fileExists filename = false) :
    ((SaveMetadata w fs filename metadata).2.fileExists filename = true ↔
      ((SaveMetadata w fs filename metadata).1 = none ∨
        ∃ err, (SaveMetadata w fs filename metadata).1 = some (SaveError.encode err))) ∧
    (∀ err, (SaveMetadata w fs filename metadata).1 = some (SaveError.mkdirAll err) ∨
        (SaveMetadata w fs filename metadata).1 = some (SaveError.marshal err) ∨
        (SaveMetadata w fs filename metadata).1 = some (SaveError.create err) →
      (SaveMetadata w fs filename metadata).2.fileExists filename = false) := by
  refine ⟨SaveMetadata_file_iff w fs filename metadata h, ?_⟩
  intro err herr
  cases hex : (SaveMetadata w fs filename metadata).2.fileExists filename with
  | false => rfl
  | true =>
    rcases (SaveMetadata_file_iff w fs filename metadata h).mp hex with h1 | ⟨e, h1⟩ <;>
      rcases herr with h2 | h2 | h2 <;> rw [h1] at h2 <;> cases h2

/-- C5, witness: on an empty file system where every call succeeds. -/
theorem SaveMetadata_file_absent_unless_created_witness :
    emptyFS.fileExists "/tmp/result/result.json" = false ∧
    (SaveMetadata calmWorld emptyFS "/tmp/result/result.json" "m").1 = none ∧
    (SaveMetadata calmWorld emptyFS "/tmp/result/result.json" "m").2.fileExists
      "/tmp/result/result.json" = true :=
  ⟨by decide, by decide,
    (SaveMetadata_file_absent_unless_created calmWorld emptyFS "/tmp/result/result.json" "m"
      (by decide)).1.mpr (Or.inl (by decide))⟩

/-- C5, as stated, fails: no file exists beforehand, the encoder's write fails,
`SaveMetadata` returns that error, and the file `os.Create` made is there. -/
theorem SaveMetadata_encode_error_leaves_file :
    emptyFS.fileExists "/tmp/result/result.json" = false ∧
    (SaveMetadata fullDiskWorld emptyFS "/tmp/result/result.json" "m").1 =
      some (SaveError.encode "write /tmp/result/result.json: no space left on device") ∧
    (SaveMetadata fullDiskWorld emptyFS "/tmp/result/result.json" "m").2.fileExists
      "/tmp/result/result.json" = true :=
  ⟨by decide, by decide, by decide⟩

/-! ## The aggregated outcome of a group -/

theorem filterMap_line_eq_nil_iff (exits : List ExitEvent) :
    exits.filterMap ExitEvent.line = [] ↔ ∀ e ∈ exits, e.Err = none := by
  induction exits with
  | nil => simp
  | cons e es ih =>
    cases he : e.Err with
    | none => simp [List.filterMap_cons, ExitEvent.line, he, ih]
    | some err => simp [List.filterMap_cons, ExitEvent.line, he]

theorem aggregatedOutcome_eq_none_iff (delimiter : String) (exits : List ExitEvent) :
    aggregatedOutcome delimiter exits = none ↔ ∀ e ∈ exits, e.Err = none := by
  rw [← filterMap_line_eq_nil_iff]
  simp only [aggregatedOutcome]
  cases exits.filterMap ExitEvent.line <;> simp

theorem contains_append_left (a b : String) : strings.Contains (a ++ b) a = true := by
  simp only [strings.Contains, containsChars_iff_infix, String.data_append]
  exact (List.prefix_append _ _).isInfix

theorem contains_append_right (a b : String) : strings.Contains (a ++ b) b = true := by
  simp only [strings.Contains, containsChars_iff_infix, String.data_append]
  exact (List.suffix_append _ _).isInfix

/-- C6: the aggregated outcome of a group is an error exactly when at least
one member's own outcome is an error, and nil only when every member exited
successfully; a runner that returns because it was signalled returns an
error; and with `builder` and `fake_docker_daemon` both interrupted the
aggregated error contains `fake_docker_daemon exited with error: interrupt`
and `builder exited with error: interrupt`. -/
theorem aggregatedOutcome_failure_iff (delimiter : String) :
    (∀ exits : List ExitEvent,
      (aggregatedOutcome delimiter exits ≠ none ↔ ∃ e ∈ exits, e.Err ≠ none) ∧
      (aggregatedOutcome delimiter exits = none ↔ ∀ e ∈ exits, e.Err = none)) ∧
    (∀ s : Signal, fakeDeamonRunner (RunnerEvent.signalled s) ≠ none) ∧
    (∃ msg,
      aggregatedOutcome delimiter
        [⟨"builder", builderInterrupted Signal.Interrupt⟩,
         ⟨"fake_docker_daemon", fakeDeamonRunner (RunnerEvent.signalled Signal.Interrupt)⟩] =
        some msg ∧
      strings.Contains msg "fake_docker_daemon exited with error: interrupt" = true ∧
      strings.Contains msg "builder exited with error: interrupt" = true) := by
  refine ⟨fun exits => ⟨?_, aggregatedOutcome_eq_none_iff delimiter exits⟩, ?_, ?_⟩
  · rw [Ne, aggregatedOutcome_eq_none_iff]
    push_neg
    rfl
  · intro s
    simp [fakeDeamonRunner]
  · refine ⟨"builder exited with error: interrupt" ++ delimiter ++
      "fake_docker_daemon exited with error: interrupt", ?_, ?_, ?_⟩
    · rfl
    · exact contains_append_right _ _
    · rw [String.append_assoc]
      exact contains_append_left _ _

/-! ## `FetchMetadata` -/

/-- C8: when the repository name resolves and the remote tag list is
retrieved, the tag looked up is the URL fragment when that is non-empty and
`latest` when it is empty; if that tag is not a key of the tag list,
`FetchMetadata` returns no image and the error `unknown tag: <repoName>:<tag>`
without requesting any image JSON (and if it is a key, the requests are the
ones of the endpoint loop for the image id found under it). -/
theorem FetchMetadata_tag_selection (reg : Registry) (parts : URL)
    (hostname repoName endpoint : String) (repoData : RepositoryData)
    (tagsList : List (String × String))
    (h1 : reg.ResolveRepositoryName (fetchRef parts) = Except.ok (hostname, repoName))
    (h2 : reg.ExpandAndVerifyRegistryUrl hostname = Except.ok endpoint)
    (h3 : reg.NewSession endpoint = Except.ok ())
    (h4 : reg.GetRepositoryData repoName = Except.ok repoData)
    (h5 : reg.GetRemoteTags repoData.Endpoints repoName repoData.Tokens = Except.ok tagsList) :
    (tagsList.lookup (if parts.Fragment = "" then "latest" else parts.Fragment) = none →
      FetchMetadata reg parts =
        (Except.error ("unknown tag: " ++ repoName ++ ":" ++
          (if parts.Fragment = "" then "latest" else parts.Fragment)), [])) ∧
    (∀ imgID, tagsList.lookup (if parts.Fragment = "" then "latest" else parts.Fragment) =
        some imgID →
      FetchMetadata reg parts =
        FetchMetadata.endpoints reg imgID repoData.Tokens repoData.Endpoints) := by
  have hl := length_eq_zero_iff parts.Fragment
  simp only [fetchRef] at h1
  by_cases hf : parts.Fragment = ""
  · have hlen : ¬ (parts.Fragment.length > 0) := by
      rw [hl.mpr hf]
      decide
    simp only [hf, if_true]
    constructor
    · intro hlook
      simp only [FetchMetadata, h1, h2, h3, h4, h5]
      simp [hf, hlook]
    · intro imgID hlook
      simp only [FetchMetadata, h1, h2, h3, h4, h5]
      simp [hf, hlook]
  · have hlen : parts.Fragment.length > 0 :=
      Nat.pos_of_ne_zero (fun h0 => hf (hl.mp h0))
    simp only [hf, if_false]
    constructor
    · intro hlook
      simp only [FetchMetadata, h1, h2, h3, h4, h5]
      simp [hlen, hlook]
    · intro imgID hlook
      simp only [FetchMetadata, h1, h2, h3, h4, h5]
      simp [hlen, hlook]

/-- C8, witness: the tag `trusty` is asked of a repository that has only
`latest`. -/
theorem FetchMetadata_tag_selection_witness :
    FetchMetadata sampleRegistry ⟨"", "/ubuntu", "trusty"⟩ =
      (Except.error "unknown tag: ubuntu:trusty", []) :=
  (FetchMetadata_tag_selection sampleRegistry ⟨"", "/ubuntu", "trusty"⟩
    "index.docker.io" "ubuntu" "https://index.docker.io/v1/" ⟨["https://r1/v1/"], []⟩
    [("latest", "abc123")] rfl rfl rfl rfl rfl).1 (by decide)

end DockerAppLifecycle
